import Mathlib

/-!
Shallow embedding of the wallpaper-aligner repository (src/main.rs, src/display.rs).

Conventions of the embedding:
* Rust `i32` values are represented by `ℤ`; every arithmetic operation that the
  source performs on `i32` (addition, subtraction, negation) goes through
  `wrap32`, the release-build two's-complement wrap into `[-2^31, 2^31)`.
* Rust `u32` values are represented by `ℕ`; `u32` addition wraps modulo `2^32`
  (`u32add`), and the `i32 as u32` bitcast is `i32toU32`.
* Rust `f32` arithmetic in the Fit-mode computation is modelled by exact
  rational arithmetic over `ℚ` with `f32::EPSILON = 2^-23`.  All concrete
  inputs used in counterexamples and witnesses below are small dyadic values
  at which every `f32` operation involved (division, subtraction, comparison,
  rounding) is exact, so the rational model and the `f32` code agree there.
* External collaborators (the OS display enumeration, the image decoder, the
  `fast_image_resize` resizer, the JPEG encoder) are modelled as oracles:
  their success/failure and, for the resizer, the produced pixels, are inputs
  of the model.
-/

namespace Wallpaper

/-- Two's-complement wrap of an integer into the `i32` range `[-2^31, 2^31)`;
this is what every Rust `i32` arithmetic result is reduced to in a release
build. -/
def wrap32 (x : ℤ) : ℤ := (x + 2 ^ 31) % 2 ^ 32 - 2 ^ 31

/-- The Rust `i32 as u32` bitcast: the value modulo `2^32`, as a natural. -/
def i32toU32 (x : ℤ) : ℕ := (x % 2 ^ 32).toNat

/-- Rust `u32` addition (wrapping, release build). -/
def u32add (a b : ℕ) : ℕ := (a + b) % 2 ^ 32

/-- `display.rs`: `Rectangle { min_x, max_x, min_y, max_y }`, all `i32`. -/
structure Rectangle where
  min_x : ℤ
  max_x : ℤ
  min_y : ℤ
  max_y : ℤ
deriving DecidableEq

/-- `display.rs` `Rectangle::resolution`:
`((max_x - min_x) as u32, (max_y - min_y) as u32)` — an `i32` subtraction
followed by the bitcast to `u32`. -/
def Rectangle.resolution (r : Rectangle) : ℕ × ℕ :=
  (i32toU32 (wrap32 (r.max_x - r.min_x)), i32toU32 (wrap32 (r.max_y - r.min_y)))

/-- `display.rs` `Rectangle::normalize`:
`max_x -= min_x; max_y -= min_y; min_x = 0; min_y = 0`. -/
def Rectangle.normalize (r : Rectangle) : Rectangle :=
  { min_x := 0, max_x := wrap32 (r.max_x - r.min_x),
    min_y := 0, max_y := wrap32 (r.max_y - r.min_y) }

/-- `display.rs` `Rectangle::move_by`: adds `x` to both x-bounds and `y` to
both y-bounds (`i32` additions). -/
def Rectangle.moveBy (r : Rectangle) (x y : ℤ) : Rectangle :=
  { min_x := wrap32 (r.min_x + x), max_x := wrap32 (r.max_x + x),
    min_y := wrap32 (r.min_y + y), max_y := wrap32 (r.max_y + y) }

/-- `display.rs`: `Display { name, bounds }`. -/
structure Display where
  name : String
  bounds : Rectangle
deriving DecidableEq

/-- `display.rs`: `DisplayConfiguration { bounds, displays }`. -/
structure DisplayConfiguration where
  bounds : Rectangle
  displays : List Display
deriving DecidableEq

/-- The per-display translation performed by `DisplayConfiguration::normalize`:
`x.bounds.move_by(-self.bounds.min_x, -self.bounds.min_y)`, where the
negations are `i32` negations. -/
def normTranslate (b : Rectangle) (d : Display) : Display :=
  { d with bounds := d.bounds.moveBy (wrap32 (-b.min_x)) (wrap32 (-b.min_y)) }

/-- `display.rs` `DisplayConfiguration::normalize`: move every display by
`(-bounds.min_x, -bounds.min_y)`, then normalize `bounds` itself. -/
def DisplayConfiguration.normalize (c : DisplayConfiguration) : DisplayConfiguration :=
  { bounds := c.bounds.normalize,
    displays := c.displays.map (normTranslate c.bounds) }

/-- Rust `Default` for `Rectangle`: all fields zero. -/
def defaultRectangle : Rectangle := ⟨0, 0, 0, 0⟩

/-- Rust `Default` for `DisplayConfiguration`: zero bounds, no displays. -/
def defaultConfig : DisplayConfiguration := ⟨defaultRectangle, []⟩

/-- One step of the `EnumDisplayMonitors` callback in `main.rs`
(`get_display_configuration`): fold the monitor rectangle into `bounds` with
coordinate-wise `min`/`max` and push the display.  The monitor name obtained
from `GetMonitorInfoW` is an oracle input (first component of the pair). -/
def enumStep (acc : DisplayConfiguration) (item : String × Rectangle) : DisplayConfiguration :=
  { bounds := { min_x := min acc.bounds.min_x item.2.min_x,
                max_x := max acc.bounds.max_x item.2.max_x,
                min_y := min acc.bounds.min_y item.2.min_y,
                max_y := max acc.bounds.max_y item.2.max_y },
    displays := acc.displays ++ [⟨item.1, item.2⟩] }

/-- `main.rs` `get_display_configuration`: fold the enumerated monitors
(ordered, with their names) over the zero-initialized default configuration. -/
def getDisplayConfiguration (items : List (String × Rectangle)) : DisplayConfiguration :=
  items.foldl enumStep defaultConfig

/-- `f32::EPSILON`, exactly `2^-23`, as a rational. -/
def eps32 : ℚ := 1 / 2 ^ 23

/-- Rust `f32::round` (round half away from zero), on the rational model. -/
def rustRound (x : ℚ) : ℤ := if 0 ≤ x then ⌊x + 1 / 2⌋ else ⌈x - 1 / 2⌉

/-- The Rust `f32 as u32` cast on an integral value: truncate toward zero and
saturate into the `u32` range. -/
def f32toU32 (x : ℤ) : ℕ := (min (max x 0) (2 ^ 32 - 1)).toNat

/-- `main.rs` Fit-mode destination computation (lines 184-198):
`width_ratio = sw / dw`, `height_ratio = sh / dh` (both `f32`); if
`width_ratio - height_ratio > f32::EPSILON` the width-constrained branch gives
`(dw, round(sh / width_ratio) as u32)`, otherwise the height-constrained
branch gives `(round(sw / height_ratio) as u32, dh)`. -/
def fitDestRes (sw sh dw dh : ℕ) : ℕ × ℕ :=
  let width_ratio : ℚ := (sw : ℚ) / (dw : ℚ)
  let height_ratio : ℚ := (sh : ℚ) / (dh : ℚ)
  if eps32 < width_ratio - height_ratio then
    (dw, f32toU32 (rustRound ((sh : ℚ) / width_ratio)))
  else
    (f32toU32 (rustRound ((sw : ℚ) / height_ratio)), dh)

/-- `main.rs` `ResizeMode`. -/
inductive ResizeMode where
  | stretch
  | fill
  | fit
deriving DecidableEq

/-- `main.rs` lines 182-199: destination dimensions per resize mode.
Stretch and Fill both use the display resolution unchanged; Fit uses the
aspect-preserving computation. -/
def destRes (mode : ResizeMode) (sw sh dw dh : ℕ) : ℕ × ℕ :=
  match mode with
  | .stretch => (dw, dh)
  | .fill => (dw, dh)
  | .fit => fitDestRes sw sh dw dh

/-- An RGB pixel value (r, g, b). -/
def Rgb : Type := ℕ × ℕ × ℕ

instance : DecidableEq Rgb := by unfold Rgb; infer_instance

/-- `HexColor::BLACK`, i.e. `#000000`. -/
def blackRgb : Rgb := (0, 0, 0)

/-- A decoded source image: natural dimensions plus its pixels. -/
structure Img where
  width : ℕ
  height : ℕ
  pix : ℕ → ℕ → Rgb

/-- The output `RgbImage` canvas: dimensions plus its pixels. -/
structure Canvas where
  width : ℕ
  height : ℕ
  pix : ℕ → ℕ → Rgb

/-- `RgbImage::new`: a canvas of the given size, zero-initialized (black). -/
def Canvas.new (w h : ℕ) : Canvas := ⟨w, h, fun _ _ => blackRgb⟩

/-- The pixel semantics of the external resizer is kept abstract: a resample
oracle produces the pixel grid of the resized image from the source image and
the destination dimensions. -/
def Resample : Type := Img → ℕ → ℕ → ℕ → ℕ → Rgb

/-- `GenericImage::copy_from` of the `image` crate, as used at `main.rs`
line 227: it first checks `self.width() < other.width() + x ||
self.height() < other.height() + y` — the sums being WRAPPING `u32`
additions in a release build — and errors without touching any pixel; on
the error path `main.rs` logs and continues, so the canvas is returned
unchanged.  The else branch models the completed copy; on the inputs
singled out by `copyPanics` below (guard passes through a wrapped sum while
the true region exceeds the canvas) the crate's per-pixel loop instead
writes the in-bounds prefix and panics, and no theorem in this file
evaluates the else branch on such inputs. -/
def Canvas.copyFrom (c : Canvas) (img : Img) (x y : ℕ) : Canvas :=
  if c.width < u32add img.width x ∨ c.height < u32add img.height y then c
  else
    { c with pix := fun i j =>
        if x ≤ i ∧ i < x + img.width ∧ y ≤ j ∧ j < y + img.height then
          img.pix (i - x) (j - y)
        else c.pix i j }

/-- The undetected-overflow condition of `copy_from`: the wrapping `u32`
bounds check passes although the true copy region exceeds the canvas.  On
such inputs the crate's loop writes the in-bounds prefix of the region and
then panics on the first out-of-bounds index, aborting the whole run (no
log-and-continue, no encode). -/
def copyPanics (c : Canvas) (img : Img) (x y : ℕ) : Prop :=
  ¬ (c.width < u32add img.width x ∨ c.height < u32add img.height y) ∧
  (c.width < img.width + x ∨ c.height < img.height + y)

/-- `imageproc::drawing::draw_filled_rect_mut` at `main.rs` lines 241-246:
fill the rectangle at `(rx, ry)` of size `rw × rh` with a solid color
(clipped to the canvas, which the total pixel function makes implicit). -/
def Canvas.fillRect (c : Canvas) (rx ry : ℤ) (rw rh : ℕ) (col : Rgb) : Canvas :=
  { c with pix := fun i j =>
      if rx ≤ (i : ℤ) ∧ (i : ℤ) < rx + rw ∧ ry ≤ (j : ℤ) ∧ (j : ℤ) < ry + rh then col
      else c.pix i j }

/-- One wallpaper slot as the compositing loop sees it.  For an image slot the
external format-detection/decode outcome is the `decoded` oracle (`none`
covers both the `with_guessed_format` and the `decode` failure paths of
`main.rs` lines 151-174) and `resizeOk` is the external resizer verdict
(`main.rs` lines 202-217). -/
inductive SlotSource where
  | image (decoded : Option Img) (resizeOk : Bool) (filename : String)
  | color (c : Rgb)

/-- `main.rs` lines 220-226: placement offset of the resized image.  Start
from `(min_x as u32, min_y as u32)` and, independently per axis, add
`(display_res - dest_res) / 2` (u32 arithmetic) exactly when the destination
dimension is strictly smaller than the display dimension. -/
def placementOffset (minx miny : ℤ) (dres dest : ℕ × ℕ) : ℕ × ℕ :=
  (if dest.1 < dres.1 then u32add (i32toU32 minx) ((dres.1 - dest.1) / 2) else i32toU32 minx,
   if dest.2 < dres.2 then u32add (i32toU32 miny) ((dres.2 - dest.2) / 2) else i32toU32 miny)

/-- The body of the per-slot loop of `main.rs` lines 143-249: decode, compute
the destination dimensions for the mode, resize, place, and copy — skipping
the slot (leaving the canvas untouched) on any failure; for a color slot,
skip if the color is `HexColor::BLACK`, otherwise fill the display rectangle. -/
def processSlot (mode : ResizeMode) (resample : Resample) (canvas : Canvas)
    (d : Display) (src : SlotSource) : Canvas :=
  let dres := d.bounds.resolution
  match src with
  | .image decoded resizeOk _ =>
    match decoded with
    | none => canvas
    | some img =>
      let dest := destRes mode img.width img.height dres.1 dres.2
      if resizeOk then
        let resized : Img := ⟨dest.1, dest.2, resample img dest.1 dest.2⟩
        let off := placementOffset d.bounds.min_x d.bounds.min_y dres dest
        canvas.copyFrom resized off.1 off.2
      else canvas
  | .color c =>
    if c = blackRgb then canvas
    else canvas.fillRect d.bounds.min_x d.bounds.min_y dres.1 dres.2 c

/-- The compositing loop: process the display/source slots in order over the
shared canvas. -/
def compositeLoop (mode : ResizeMode) (resample : Resample) (canvas : Canvas)
    (slots : List (Display × SlotSource)) : Canvas :=
  slots.foldl (fun c p => processSlot mode resample c p.1 p.2) canvas

/-- The conditions under which `main.rs` detects a slot failure and skips
the slot: format/decode failure, resizer failure, or the out-of-bounds check
of `copy_from` — the latter with the crate's WRAPPING `u32` sums, so a true
overflow whose wrapped sum slips under the canvas width is NOT detected
(see `copyPanics`). -/
def slotFails (mode : ResizeMode) (cw ch : ℕ) (d : Display) (src : SlotSource) : Prop :=
  match src with
  | .image decoded resizeOk _ =>
    match decoded with
    | none => True
    | some img =>
      resizeOk = false ∨
        (let dres := d.bounds.resolution
         let dest := destRes mode img.width img.height dres.1 dres.2
         let off := placementOffset d.bounds.min_x d.bounds.min_y dres dest
         cw < u32add dest.1 off.1 ∨ ch < u32add dest.2 off.2)
  | .color _ => False

/-- One hex digit, as in `hex_color` parsing. -/
def hexDigitVal (c : Char) : Option ℕ :=
  if ('0' ≤ c ∧ c ≤ '9') then some (c.toNat - '0'.toNat)
  else if ('a' ≤ c ∧ c ≤ 'f') then some (c.toNat - 'a'.toNat + 10)
  else if ('A' ≤ c ∧ c ≤ 'F') then some (c.toNat - 'A'.toNat + 10)
  else none

/-- Modelled from the spec: `hex_color::HexColor::parse_rgb` (an external
crate, not part of src/), for the `#RRGGBB` hex color literal form named in
the spec's CLI surface section. -/
def hexParseRgb (s : String) : Option Rgb :=
  match s.toList with
  | ['#', r1, r2, g1, g2, b1, b2] =>
    match hexDigitVal r1, hexDigitVal r2, hexDigitVal g1, hexDigitVal g2,
          hexDigitVal b1, hexDigitVal b2 with
    | some a, some b, some c, some d, some e, some f =>
      some (16 * a + b, 16 * c + d, 16 * e + f)
    | _, _, _, _, _, _ => none
  | _ => none

/-- `main.rs` `WallpaperArgument` at the argument-parsing level: an image
path or a color. -/
inductive WallpaperArgument where
  | image (filename : String)
  | color (c : Rgb)
deriving DecidableEq

/-- `main.rs` `WallpaperArgument::from_str` (lines 84-95): the empty token is
`Color(HexColor::BLACK)`; otherwise try the hex color parse; otherwise try to
open the file (`fileOpens` is the filesystem oracle); otherwise error. -/
def wallpaperArgumentFromStr (s : String) (fileOpens : Bool) :
    Except String WallpaperArgument :=
  if s = "" then .ok (.color blackRgb)
  else
    match hexParseRgb s with
    | some c => .ok (.color c)
    | none =>
      if fileOpens then .ok (.image s)
      else .error "Unable to parse color or open file"

/-- The observable outcome of one run of `main` (after the configuration has
been obtained). -/
inductive RunOutcome where
  | helpShown
  | displayInfoOnly
  | countMismatch (displayCount imageCount : ℕ)
  | written (canvas : Canvas)
  | encodeFailed

/-- The control-flow skeleton of `main.rs` `main` (lines 98-266): print help
when there are no positional arguments and no displays flag; with the flag
and no arguments, only show displays; report a count mismatch and stop when
the argument count differs from the display count; otherwise normalize,
composite every slot, and encode/write (`encodeOk` is the encoder oracle).
The interactive overwrite confirmation only renames the output path and is
out of scope per the spec. -/
def runMain (resample : Resample) (showDisplays : Bool) (config : DisplayConfiguration)
    (images : List SlotSource) (mode : ResizeMode) (encodeOk : Bool) : RunOutcome :=
  if showDisplays = false ∧ images.isEmpty = true then .helpShown
  else if images.isEmpty = true then .displayInfoOnly
  else if config.displays.length ≠ images.length then
    .countMismatch config.displays.length images.length
  else
    let c := config.normalize
    let res := c.bounds.resolution
    let canvas := compositeLoop mode resample (Canvas.new res.1 res.2) (c.displays.zip images)
    if encodeOk then .written canvas else .encodeFailed

/-- Whether a run outcome wrote (attempted to write) an output file. -/
def RunOutcome.writesOutput : RunOutcome → Bool
  | .written _ => true
  | _ => false

/-- Whether a run outcome printed the count-mismatch message. -/
def RunOutcome.printsMismatch : RunOutcome → Bool
  | .countMismatch _ _ => true
  | _ => false

/-- A trivial resample oracle for concrete witnesses. -/
def trivialResample : Resample := fun _ _ _ _ _ => blackRgb

/-- The `i32` range, as a predicate on the mathematical integers. -/
def inI32 (x : ℤ) : Prop := -2 ^ 31 ≤ x ∧ x < 2 ^ 31

instance (x : ℤ) : Decidable (inI32 x) := by unfold inI32; infer_instance

/-- A concrete two-display configuration (two 1920x1080 monitors side by
side), used by witnesses. -/
def cfg2 : DisplayConfiguration :=
  ⟨⟨0, 3840, 0, 1080⟩,
   [⟨"A", ⟨0, 1920, 0, 1080⟩⟩, ⟨"B", ⟨1920, 3840, 0, 1080⟩⟩]⟩

/-- A concrete configuration with a display left of the origin, used by
witnesses. -/
def cfgNeg : DisplayConfiguration :=
  ⟨⟨-1920, 1920, 0, 1080⟩,
   [⟨"A", ⟨-1920, 0, 0, 1080⟩⟩, ⟨"B", ⟨0, 1920, 0, 1080⟩⟩]⟩

/-- A concrete display, used by witnesses. -/
def dA : Display := ⟨"A", ⟨0, 1920, 0, 1080⟩⟩

/-- A second concrete display, used by witnesses. -/
def dB : Display := ⟨"B", ⟨1920, 3840, 0, 1080⟩⟩

/-- The first display of `cfgNeg` after normalization, used by witnesses. -/
def dANeg : Display := ⟨"A", ⟨0, 1920, 0, 1080⟩⟩

/-- A configuration whose bounds sit at `i32::MIN`: the `i32` negation of
`bounds.min_x` wraps, so the per-display translation of `normalize` is not
`(-bounds.min_x, -bounds.min_y)` and relative positions change. -/
def cBad : DisplayConfiguration :=
  ⟨⟨-(2 ^ 31), 0, -(2 ^ 31), 0⟩,
   [⟨"Z", ⟨0, 0, 0, 0⟩⟩, ⟨"M", ⟨-(2 ^ 31), 0, -(2 ^ 31), 0⟩⟩]⟩

/-- A configuration built by the enumeration fold from a monitor at
`i32::MIN` next to one at the origin. -/
def cExtreme : DisplayConfiguration :=
  getDisplayConfiguration [("M", ⟨-(2 ^ 31), 0, -(2 ^ 31), 0⟩), ("Z", ⟨0, 1, 0, 1⟩)]

/-- A 129x1 source image.  On a `2^30`-square display its Fit-mode ratios
`129/2^30` and `1/2^30` differ by exactly `f32::EPSILON` (every `f32` step
exact), so the height branch fires and `round(129 * 2^30)` saturates the
`f32 as u32` cast at `2^32 - 1`. -/
def img129 : Img := ⟨129, 1, fun _ _ => blackRgb⟩

/-- A `2^30`-square display at `x = 20` (an ordinary normalized position,
e.g. right of a 20-pixel-wide neighbor at the origin). -/
def dPanic : Display := ⟨"P", ⟨20, 1073741844, 0, 1073741824⟩⟩

end Wallpaper

namespace Wallpaper

lemma wrap32_lb (x : ℤ) : -2 ^ 31 ≤ wrap32 x := by
  unfold wrap32; omega

lemma wrap32_ub (x : ℤ) : wrap32 x < 2 ^ 31 := by
  unfold wrap32; omega

lemma wrap32_eq_self {x : ℤ} (h1 : -2 ^ 31 ≤ x) (h2 : x < 2 ^ 31) : wrap32 x = x := by
  unfold wrap32; omega

lemma wrap32_idem (x : ℤ) : wrap32 (wrap32 x) = wrap32 x :=
  wrap32_eq_self (wrap32_lb x) (wrap32_ub x)

lemma wrap32_zero : wrap32 0 = 0 := by unfold wrap32; decide

lemma wrap32_emod (x : ℤ) : wrap32 x % 2 ^ 32 = x % 2 ^ 32 := by
  unfold wrap32; omega

lemma i32toU32_of_nonneg {x : ℤ} (h1 : 0 ≤ x) (h2 : x < 2 ^ 32) :
    (i32toU32 x : ℤ) = x := by
  unfold i32toU32; omega

lemma f32toU32_of_bounds {x : ℤ} (h1 : 0 ≤ x) (h2 : x ≤ 2 ^ 32 - 1) :
    (f32toU32 x : ℤ) = x := by
  unfold f32toU32; omega

/-- The enumeration callback fold, from an arbitrary accumulator: the bounds
are the coordinate-wise min/max of the accumulator bounds and all rectangles,
and the displays are appended in order. -/
lemma enum_foldl_spec (items : List (String × Rectangle)) (acc : DisplayConfiguration) :
    (items.foldl enumStep acc).bounds.min_x
        = (items.map fun p => p.2.min_x).foldl min acc.bounds.min_x ∧
    (items.foldl enumStep acc).bounds.max_x
        = (items.map fun p => p.2.max_x).foldl max acc.bounds.max_x ∧
    (items.foldl enumStep acc).bounds.min_y
        = (items.map fun p => p.2.min_y).foldl min acc.bounds.min_y ∧
    (items.foldl enumStep acc).bounds.max_y
        = (items.map fun p => p.2.max_y).foldl max acc.bounds.max_y ∧
    (items.foldl enumStep acc).displays
        = acc.displays ++ items.map fun p => ⟨p.1, p.2⟩ := by
  induction items generalizing acc with
  | nil => simp
  | cons hd tl ih =>
    simpa [enumStep] using ih (enumStep acc hd)

/-- C6: in Stretch mode and in Fill mode the destination dimensions computed
for a slot are exactly the display resolution `(dw, dh)`, for every source
dimension pair. -/
theorem stretch_fill_dest_eq_display (sw sh dw dh : ℕ) :
    destRes .stretch sw sh dw dh = (dw, dh) ∧ destRes .fill sw sh dw dh = (dw, dh) :=
  ⟨rfl, rfl⟩

/-- C2 (amended): for every configuration produced by the enumeration fold,
`bounds` is the coordinate-wise min/max across all display rectangles
TOGETHER WITH the zero seed of `DisplayConfiguration::default()`:
`bounds.min_x = min(0, min over displays)` and so on; the plain min/max of
the claim is recovered exactly when some display reaches a coordinate of each
sign. -/
theorem build_config_bounds_minmax (items : List (String × Rectangle)) :
    (getDisplayConfiguration items).bounds.min_x
        = (items.map fun p => p.2.min_x).foldl min 0 ∧
    (getDisplayConfiguration items).bounds.max_x
        = (items.map fun p => p.2.max_x).foldl max 0 ∧
    (getDisplayConfiguration items).bounds.min_y
        = (items.map fun p => p.2.min_y).foldl min 0 ∧
    (getDisplayConfiguration items).bounds.max_y
        = (items.map fun p => p.2.max_y).foldl max 0 ∧
    (getDisplayConfiguration items).displays = items.map fun p => ⟨p.1, p.2⟩ := by
  simpa [getDisplayConfiguration, defaultConfig, defaultRectangle] using
    enum_foldl_spec items defaultConfig

/-- C2 counterexample: a single monitor strictly in positive coordinates.
The coordinate-wise minimum across the displays is 100, but the zero-seeded
fold puts `bounds.min_x = min 0 100 = 0`, so `bounds` is NOT the
coordinate-wise min/max across `displays[i].bounds`. -/
theorem build_config_bounds_zero_seed_counterexample :
    ((getDisplayConfiguration [("A", ⟨100, 200, 100, 200⟩)]).displays.map
        fun d => d.bounds.min_x) = [100] ∧
    (getDisplayConfiguration [("A", ⟨100, 200, 100, 200⟩)]).bounds.min_x = 0 ∧
    (0 : ℤ) ≠ 100 := by
  decide

/-- C3 (amended): whenever the display count differs from the source count,
the run writes no output file (and, the model being total, does not panic);
it additionally prints the mismatch message and stops with the
`countMismatch` outcome whenever at least one source argument was supplied —
with zero source arguments the run stops just as early, but through the
help/display-info paths, without the mismatch message. -/
theorem mismatch_no_output (resample : Resample) (showDisplays : Bool)
    (config : DisplayConfiguration) (images : List SlotSource) (mode : ResizeMode)
    (encodeOk : Bool) (hne : config.displays.length ≠ images.length) :
    (runMain resample showDisplays config images mode encodeOk).writesOutput = false ∧
    (images ≠ [] → runMain resample showDisplays config images mode encodeOk =
      .countMismatch config.displays.length images.length) := by
  by_cases he : images = []
  · subst he
    refine ⟨?_, fun hni => absurd rfl hni⟩
    cases showDisplays <;> rfl
  · unfold runMain
    rw [if_neg, if_neg, if_pos hne]
    · exact ⟨rfl, fun _ => rfl⟩
    · simp [List.isEmpty_iff, he]
    · simp [List.isEmpty_iff, he]

/-- C3 witness: two displays, one source: the mismatch outcome, no write. -/
theorem mismatch_no_output_witness :
    (runMain trivialResample false cfg2 [.color blackRgb] .stretch true).writesOutput
        = false ∧
    runMain trivialResample false cfg2 [.color blackRgb] .stretch true =
      .countMismatch 2 1 := by
  have h := mismatch_no_output trivialResample false cfg2 [.color blackRgb] .stretch
    true (by decide)
  exact ⟨h.1, h.2 (by simp)⟩

/-- C3 counterexample: two displays and ZERO sources is a mismatched pair of
counts, yet the run prints help instead of the mismatch message (the claim
as stated requires the mismatch message for every mismatched pair). -/
theorem mismatch_zero_images_counterexample :
    cfg2.displays.length ≠ ([] : List SlotSource).length ∧
    (runMain trivialResample false cfg2 [] .stretch true).printsMismatch = false :=
  ⟨by decide, rfl⟩

/-- C9: the empty-string token parses to `Color(BLACK)`, exactly the value
that the literal `#000000` parses to, and the compositor does nothing for a
black color slot (the display region stays the canvas background), so an
explicit black fill is indistinguishable from a skip. -/
theorem empty_token_black_skip (b : Bool) (mode : ResizeMode) (resample : Resample)
    (canvas : Canvas) (d : Display) :
    wallpaperArgumentFromStr "" b = .ok (.color blackRgb) ∧
    wallpaperArgumentFromStr "#000000" b = .ok (.color blackRgb) ∧
    wallpaperArgumentFromStr "" b = wallpaperArgumentFromStr "#000000" b ∧
    processSlot mode resample canvas d (.color blackRgb) = canvas := by
  refine ⟨rfl, rfl, rfl, ?_⟩
  simp [processSlot]

/-- C8 (amended): every per-slot failure that the code DETECTS — a
format/decode failure, a resizer failure, or the (wrapping-`u32`)
out-of-bounds check of the canvas copy — is skipped with the canvas left
exactly as it was: the failing slot's region keeps its prior (black) pixels,
no partial pixels are written, and the loop continues with the remaining
slots on the unchanged canvas.  A failing copy whose wrapped bounds check
spuriously passes (resized width plus offset at least `2^32`) escapes
detection: there the crate part-writes and panics instead, aborting the
remaining slots and the encode — see the counterexample. -/
theorem slot_failure_skips (mode : ResizeMode) (resample : Resample) (canvas : Canvas)
    (d : Display) (src : SlotSource) (rest : List (Display × SlotSource))
    (h : slotFails mode canvas.width canvas.height d src) :
    processSlot mode resample canvas d src = canvas ∧
    compositeLoop mode resample canvas ((d, src) :: rest) =
      compositeLoop mode resample canvas rest := by
  have hp : processSlot mode resample canvas d src = canvas := by
    cases src with
    | color c => exact absurd h (by simp [slotFails])
    | image decoded resizeOk fn =>
      cases decoded with
      | none => rfl
      | some img =>
        simp only [slotFails] at h
        rcases h with h | h
        · simp [processSlot, h]
        · cases resizeOk with
          | false => simp [processSlot]
          | true =>
            simp only [processSlot, if_pos]
            exact if_pos h
  exact ⟨hp, by simp [compositeLoop, hp]⟩

/-- C8 witness: a slot whose decode failed leaves a concrete canvas
untouched and the loop equal to the loop over the remaining slots. -/
theorem slot_failure_skips_witness :
    processSlot .stretch trivialResample (Canvas.new 100 100) dA
        (.image none true "img") = Canvas.new 100 100 ∧
    compositeLoop .stretch trivialResample (Canvas.new 100 100)
        [(dA, .image none true "img")] =
      compositeLoop .stretch trivialResample (Canvas.new 100 100) [] :=
  slot_failure_skips .stretch trivialResample (Canvas.new 100 100) dA
    (.image none true "img") [] trivial

/-- C8 counterexample: a copy into the canvas that cannot fit but escapes
detection, so the slot is NOT reported-and-skipped.  On the `2^30`-square
display at `x = 20`, the 129x1 source in Fit mode saturates the destination
width at `2^32 - 1` (first conjunct; every `f32` step is exact).  The true
copy region exceeds the `2^30+20`-wide canvas (the copy fails), yet the
crate's wrapping guard computes `(2^32 - 1) + 20 = 19` (second conjunct)
and passes, so none of the code's skip paths fires (third conjunct) and the
slot is in the `copyPanics` regime (fourth conjunct): the per-pixel loop
writes part of a row and then panics, aborting the remaining slots and the
encode — contradicting "no partial pixels of that slot are written, and all
subsequent slots and the final encode are still processed". -/
theorem copy_guard_wrap_escapes_detection :
    destRes .fit 129 1 1073741824 1073741824 = (4294967295, 1073741824) ∧
    u32add 4294967295 20 = 19 ∧
    ¬ slotFails .fit 1073741844 1073741824 dPanic (.image (some img129) true "big") ∧
    copyPanics (Canvas.new 1073741844 1073741824)
      ⟨4294967295, 1073741824, trivialResample img129 4294967295 1073741824⟩ 20 0 := by
  have hdres : dPanic.bounds.resolution = (1073741824, 1073741824) := by
    norm_num [dPanic, Rectangle.resolution, wrap32, i32toU32]
    rfl
  have hdest : destRes .fit 129 1 1073741824 1073741824 = (4294967295, 1073741824) := by
    norm_num [destRes, fitDestRes, eps32, rustRound, f32toU32]
    rfl
  have hoff : placementOffset dPanic.bounds.min_x dPanic.bounds.min_y
      (1073741824, 1073741824) (4294967295, 1073741824) = (20, 0) := by
    norm_num [dPanic, placementOffset, i32toU32, u32add]
    rfl
  refine ⟨hdest, by norm_num [u32add], ?_, ?_⟩
  · intro hcon
    simp only [slotFails, img129, hdres] at hcon
    rw [hdest, hoff] at hcon
    rcases hcon with h | h | h
    · exact absurd h (by decide)
    · norm_num [u32add] at h
    · norm_num [u32add] at h
  · constructor
    · intro hcon
      rcases hcon with h | h <;> norm_num [Canvas.new, u32add] at h
    · norm_num [Canvas.new]

/-- C7: the placement offset is `display.bounds.min` (cast to `u32`) with,
independently per axis, `(display_res - dest_res) / 2` (integer division)
added exactly when the resized dimension is strictly smaller than the
display dimension; the stated value ranges make the `u32` arithmetic exact. -/
theorem placement_offset_centers (minx miny : ℤ) (dres dest : ℕ × ℕ)
    (hx0 : 0 ≤ minx) (hx1 : minx < 2 ^ 31) (hy0 : 0 ≤ miny) (hy1 : miny < 2 ^ 31)
    (hw : dres.1 < 2 ^ 32) (hh : dres.2 < 2 ^ 32) :
    placementOffset minx miny dres dest =
      (minx.toNat + (if dest.1 < dres.1 then (dres.1 - dest.1) / 2 else 0),
       miny.toNat + (if dest.2 < dres.2 then (dres.2 - dest.2) / 2 else 0)) := by
  unfold placementOffset u32add i32toU32
  refine Prod.ext ?_ ?_ <;> simp only [] <;> split <;> omega

/-- C4 (amended): `normalize` is idempotent for every configuration (even
under wrapping `i32` arithmetic); it translates every display by the same
per-axis shift — the wrapped negation of `bounds.min` — which equals
`(-bounds.min_x, -bounds.min_y)` whenever those negations do not overflow
`i32`; it preserves each display's position relative to the others modulo
`2^32` always, and exactly whenever the translated coordinates stay inside
the `i32` range. -/
theorem normalize_idem_and_translation (c : DisplayConfiguration) :
    c.normalize.normalize = c.normalize ∧
    c.normalize.displays = c.displays.map (normTranslate c.bounds) ∧
    (∀ d1 d2 : Display,
      ((normTranslate c.bounds d1).bounds.min_x
          - (normTranslate c.bounds d2).bounds.min_x) % 2 ^ 32
        = (d1.bounds.min_x - d2.bounds.min_x) % 2 ^ 32 ∧
      ((normTranslate c.bounds d1).bounds.min_y
          - (normTranslate c.bounds d2).bounds.min_y) % 2 ^ 32
        = (d1.bounds.min_y - d2.bounds.min_y) % 2 ^ 32) ∧
    (∀ d1 d2 : Display,
      inI32 (d1.bounds.min_x + wrap32 (-c.bounds.min_x)) →
      inI32 (d2.bounds.min_x + wrap32 (-c.bounds.min_x)) →
      inI32 (d1.bounds.min_y + wrap32 (-c.bounds.min_y)) →
      inI32 (d2.bounds.min_y + wrap32 (-c.bounds.min_y)) →
      (normTranslate c.bounds d1).bounds.min_x
          - (normTranslate c.bounds d2).bounds.min_x
        = d1.bounds.min_x - d2.bounds.min_x ∧
      (normTranslate c.bounds d1).bounds.min_y
          - (normTranslate c.bounds d2).bounds.min_y
        = d1.bounds.min_y - d2.bounds.min_y) := by
  refine ⟨?_, rfl, ?_, ?_⟩
  · unfold DisplayConfiguration.normalize
    congr 1
    · simp [Rectangle.normalize, sub_zero, wrap32_idem]
    · rw [List.map_map]
      have hcomp : normTranslate (Rectangle.normalize c.bounds) ∘ normTranslate c.bounds
          = normTranslate c.bounds := by
        funext d
        simp [normTranslate, Rectangle.moveBy, Rectangle.normalize, neg_zero,
          wrap32_zero, add_zero, wrap32_idem]
      rw [hcomp]
  · intro d1 d2
    simp only [normTranslate, Rectangle.moveBy]
    refine ⟨?_, ?_⟩
    · generalize wrap32 (-c.bounds.min_x) = dx
      unfold wrap32
      omega
    · generalize wrap32 (-c.bounds.min_y) = dy
      unfold wrap32
      omega
  · intro d1 d2 h1 h2 h3 h4
    simp only [normTranslate, Rectangle.moveBy]
    rw [wrap32_eq_self h1.1 h1.2, wrap32_eq_self h2.1 h2.2,
      wrap32_eq_self h3.1 h3.2, wrap32_eq_self h4.1 h4.2]
    omega

/-- C4 witness: the idempotence and the exact relative-position preservation
at the concrete side-by-side two-display configuration. -/
theorem normalize_idem_and_translation_witness :
    cfg2.normalize.normalize = cfg2.normalize ∧
    (normTranslate cfg2.bounds dA).bounds.min_x
        - (normTranslate cfg2.bounds dB).bounds.min_x
      = dA.bounds.min_x - dB.bounds.min_x := by
  have h := normalize_idem_and_translation cfg2
  exact ⟨h.1, (h.2.2.2 dA dB (by decide) (by decide) (by decide) (by decide)).1⟩

/-- C4 counterexample: at a configuration whose bounds.min is `i32::MIN`,
the wrapping negation makes the translation shift `-2^31` instead of
`+2^31`; the display at 0 and the display at `-2^31` swap their normalized
order, so relative positions are NOT preserved (the x-distance flips sign). -/
theorem normalize_wrap_breaks_relative_position :
    (cBad.normalize.displays.map fun d => d.bounds.min_x) = [-(2 ^ 31), 0] ∧
    (cBad.displays.map fun d => d.bounds.min_x) = [0, -(2 ^ 31)] ∧
    (-(2 ^ 31) - (0 : ℤ)) ≠ (0 - -((2 : ℤ) ^ 31)) := by
  decide

/-- C10 (amended): after `normalize`, every display's `min_x`/`min_y` is
non-negative and below `2^31`, so the `i32 as u32` casts used for the
placement offset are exact — PROVIDED `bounds.min` is at most the zero seed
and strictly above `i32::MIN`, and each display's offset from `bounds.min`
fits in `i32` (the wrapping arithmetic breaks the guarantee at `i32::MIN`,
see the counterexample). -/
theorem normalize_nonneg_casts_exact (c : DisplayConfiguration)
    (hbx1 : -2 ^ 31 < c.bounds.min_x) (hbx2 : c.bounds.min_x ≤ 0)
    (hby1 : -2 ^ 31 < c.bounds.min_y) (hby2 : c.bounds.min_y ≤ 0)
    (h : ∀ d ∈ c.displays,
      c.bounds.min_x ≤ d.bounds.min_x ∧ d.bounds.min_x - c.bounds.min_x < 2 ^ 31 ∧
      c.bounds.min_y ≤ d.bounds.min_y ∧ d.bounds.min_y - c.bounds.min_y < 2 ^ 31) :
    ∀ d ∈ c.normalize.displays,
      0 ≤ d.bounds.min_x ∧ d.bounds.min_x < 2 ^ 31 ∧
      (i32toU32 d.bounds.min_x : ℤ) = d.bounds.min_x ∧
      0 ≤ d.bounds.min_y ∧ d.bounds.min_y < 2 ^ 31 ∧
      (i32toU32 d.bounds.min_y : ℤ) = d.bounds.min_y := by
  intro d hd
  simp only [DisplayConfiguration.normalize, List.mem_map] at hd
  obtain ⟨d0, hd0, rfl⟩ := hd
  obtain ⟨h1, h2, h3, h4⟩ := h d0 hd0
  have hnx : wrap32 (-c.bounds.min_x) = -c.bounds.min_x :=
    wrap32_eq_self (by omega) (by omega)
  have hny : wrap32 (-c.bounds.min_y) = -c.bounds.min_y :=
    wrap32_eq_self (by omega) (by omega)
  simp only [normTranslate, Rectangle.moveBy, hnx, hny]
  have ex : wrap32 (d0.bounds.min_x + -c.bounds.min_x)
      = d0.bounds.min_x - c.bounds.min_x := by
    rw [show d0.bounds.min_x + -c.bounds.min_x = d0.bounds.min_x - c.bounds.min_x
      from by ring]
    exact wrap32_eq_self (by omega) (by omega)
  have ey : wrap32 (d0.bounds.min_y + -c.bounds.min_y)
      = d0.bounds.min_y - c.bounds.min_y := by
    rw [show d0.bounds.min_y + -c.bounds.min_y = d0.bounds.min_y - c.bounds.min_y
      from by ring]
    exact wrap32_eq_self (by omega) (by omega)
  rw [ex, ey]
  refine ⟨by omega, by omega, ?_, by omega, by omega, ?_⟩
  · exact i32toU32_of_nonneg (by omega) (by omega)
  · exact i32toU32_of_nonneg (by omega) (by omega)

/-- C10 witness: in the concrete configuration with a display left of the
origin, the first normalized display has non-negative coordinates and exact
casts. -/
theorem normalize_nonneg_casts_exact_witness :
    0 ≤ dANeg.bounds.min_x ∧ dANeg.bounds.min_x < 2 ^ 31 ∧
    (i32toU32 dANeg.bounds.min_x : ℤ) = dANeg.bounds.min_x ∧
    0 ≤ dANeg.bounds.min_y ∧ dANeg.bounds.min_y < 2 ^ 31 ∧
    (i32toU32 dANeg.bounds.min_y : ℤ) = dANeg.bounds.min_y :=
  normalize_nonneg_casts_exact cfgNeg (by decide) (by decide) (by decide) (by decide)
    (by decide) dANeg (by decide)

/-- C10 counterexample: a configuration built by the zero-seeded fold from a
monitor at `i32::MIN`: `bounds.min` is below every display's min as the
claim assumes, yet after `normalize` the second display's `min_x` is
`-2^31 < 0` and its `i32 as u32` cast wraps. -/
theorem normalize_cast_wraps_at_extreme :
    (∀ d ∈ cExtreme.displays,
      cExtreme.bounds.min_x ≤ d.bounds.min_x ∧
      cExtreme.bounds.min_y ≤ d.bounds.min_y) ∧
    (cExtreme.normalize.displays.map fun d => d.bounds.min_x) = [0, -(2 ^ 31)] ∧
    ¬ (0 : ℤ) ≤ -((2 : ℤ) ^ 31) ∧
    (i32toU32 (-(2 ^ 31)) : ℤ) ≠ -(2 ^ 31) := by
  decide

/-- C7 witness: a 1024x384 letterboxed image on a 1024x768 display at the
origin is centered 192 pixels down. -/
theorem placement_offset_centers_witness :
    placementOffset 0 0 (1024, 768) (1024, 384) = (0, 192) := by
  have h := placement_offset_centers 0 0 (1024, 768) (1024, 384)
    (by norm_num) (by norm_num) (by norm_num) (by norm_num) (by norm_num) (by norm_num)
  simpa using h

/-- C1 (amended/corrected): in Fit mode a near-exact-ratio match — the two
ratios equal or differing by no more than `f32::EPSILON` in either direction
— is treated as HEIGHT binds, not width binds: the height-constrained branch
is taken, giving `ow = round(sw / height_ratio)` and `oh = dh`. -/
theorem fit_tie_height_binds (sw sh dw dh : ℕ)
    (h : |(sw : ℚ) / (dw : ℚ) - (sh : ℚ) / (dh : ℚ)| ≤ eps32) :
    fitDestRes sw sh dw dh =
      (f32toU32 (rustRound ((sw : ℚ) / ((sh : ℚ) / (dh : ℚ)))), dh) := by
  have hle : (sw : ℚ) / (dw : ℚ) - (sh : ℚ) / (dh : ℚ) ≤ eps32 :=
    (le_abs_self _).trans h
  simp only [fitDestRes]
  rw [if_neg (not_lt.mpr hle)]

/-- C1 witness: exactly matching ratios (a 1920x1080 source on a 1920x1080
display) take the height-constrained branch. -/
theorem fit_tie_height_binds_witness :
    fitDestRes 1920 1080 1920 1080 =
      (f32toU32 (rustRound ((1920 : ℚ) / ((1080 : ℚ) / (1080 : ℚ)))), 1080) := by
  have h := fit_tie_height_binds 1920 1080 1920 1080
    (by rw [abs_le]; constructor <;> norm_num [eps32])
  simpa using h

/-- C1 counterexample: source 2x1 on an 8388608x8388608 display.  The ratios
`2/2^23` and `1/2^23` differ by exactly `f32::EPSILON` (all values exact in
`f32`), so per the claim width should bind with output
`(8388608, round(sh/width_ratio)) = (8388608, 4194304)`; the code instead
takes the height branch and returns `(16777216, 8388608)`. -/
theorem fit_tie_not_width_binds :
    |(2 : ℚ) / 8388608 - (1 : ℚ) / 8388608| ≤ eps32 ∧
    rustRound ((1 : ℚ) / ((2 : ℚ) / 8388608)) = 4194304 ∧
    fitDestRes 2 1 8388608 8388608 = (16777216, 8388608) ∧
    fitDestRes 2 1 8388608 8388608 ≠ (8388608, 4194304) := by
  have h3 : fitDestRes 2 1 8388608 8388608 = (16777216, 8388608) := by
    norm_num [fitDestRes, eps32, rustRound, f32toU32]
    rfl
  refine ⟨?_, ?_, h3, ?_⟩
  · rw [abs_le]; constructor <;> norm_num [eps32]
  · norm_num [rustRound]
  · rw [h3]; decide

/-- C5 (amended): in Fit mode, whenever the ratio pair is NOT in the epsilon
tie zone (`height_ratio < width_ratio ≤ height_ratio + epsilon`), the
destination dimensions never exceed the display resolution in either axis,
and the aspect ratio is preserved within one pixel: one dimension equals the
display's exactly and the other is within one pixel of the exact
aspect-preserving value.  (Inside the tie zone the height branch can exceed
the display width, see the counterexample.) -/
theorem fit_dims_bounded (sw sh dw dh : ℕ)
    (hsw : 1 ≤ sw) (hsh : 1 ≤ sh) (hdw : 1 ≤ dw) (hdh : 1 ≤ dh)
    (hdw2 : dw < 2 ^ 32) (hdh2 : dh < 2 ^ 32)
    (htie : ¬ ((sh : ℚ) / (dh : ℚ) < (sw : ℚ) / (dw : ℚ) ∧
               (sw : ℚ) / (dw : ℚ) - (sh : ℚ) / (dh : ℚ) ≤ eps32)) :
    (fitDestRes sw sh dw dh).1 ≤ dw ∧ (fitDestRes sw sh dw dh).2 ≤ dh ∧
    (((fitDestRes sw sh dw dh).1 = dw ∧
        |((fitDestRes sw sh dw dh).2 : ℚ) - (sh : ℚ) * (dw : ℚ) / (sw : ℚ)| ≤ 1) ∨
     (|((fitDestRes sw sh dw dh).1 : ℚ) - (sw : ℚ) * (dh : ℚ) / (sh : ℚ)| ≤ 1 ∧
        (fitDestRes sw sh dw dh).2 = dh)) := by
  have hSW : (0 : ℚ) < (sw : ℚ) := by exact_mod_cast hsw
  have hSH : (0 : ℚ) < (sh : ℚ) := by exact_mod_cast hsh
  have hDW : (0 : ℚ) < (dw : ℚ) := by exact_mod_cast hdw
  have hDH : (0 : ℚ) < (dh : ℚ) := by exact_mod_cast hdh
  have hwr : (0 : ℚ) < (sw : ℚ) / (dw : ℚ) := div_pos hSW hDW
  have hhr : (0 : ℚ) < (sh : ℚ) / (dh : ℚ) := div_pos hSH hDH
  by_cases hc : eps32 < (sw : ℚ) / (dw : ℚ) - (sh : ℚ) / (dh : ℚ)
  · -- width-constrained branch
    have hfit : fitDestRes sw sh dw dh
        = (dw, f32toU32 (rustRound ((sh : ℚ) / ((sw : ℚ) / (dw : ℚ))))) := by
      simp only [fitDestRes]
      rw [if_pos hc]
    have heps : (0 : ℚ) < eps32 := by norm_num [eps32]
    have hlt : (sh : ℚ) / (dh : ℚ) < (sw : ℚ) / (dw : ℚ) := by linarith
    set x : ℚ := (sh : ℚ) / ((sw : ℚ) / (dw : ℚ)) with hxdef
    have hx0 : 0 ≤ x := le_of_lt (div_pos hSH hwr)
    have hxd : x < (dh : ℚ) := by
      have h1 : (sh : ℚ) / ((sw : ℚ) / (dw : ℚ)) < (sh : ℚ) / ((sh : ℚ) / (dh : ℚ)) :=
        div_lt_div_of_pos_left hSH hhr hlt
      have h2 : (sh : ℚ) / ((sh : ℚ) / (dh : ℚ)) = (dh : ℚ) := by
        rw [div_div_eq_mul_div, mul_div_cancel_left₀ _ (ne_of_gt hSH)]
      rw [hxdef]
      rw [h2] at h1
      exact h1
    have hxval : x = (sh : ℚ) * (dw : ℚ) / (sw : ℚ) := div_div_eq_mul_div _ _ _
    have hround : rustRound x = ⌊x + 1 / 2⌋ := if_pos hx0
    have hfl0 : (0 : ℤ) ≤ ⌊x + 1 / 2⌋ := by
      rw [Int.le_floor]
      push_cast
      linarith
    have hfld : ⌊x + 1 / 2⌋ ≤ (dh : ℤ) := by
      have hlt2 : ⌊x + 1 / 2⌋ < (dh : ℤ) + 1 := by
        rw [Int.floor_lt]
        push_cast
        linarith
      omega
    have hcast : (f32toU32 (rustRound x) : ℤ) = ⌊x + 1 / 2⌋ := by
      rw [hround]
      exact f32toU32_of_bounds hfl0 (by omega)
    have hle2 : f32toU32 (rustRound x) ≤ dh := by omega
    have hQ : (f32toU32 (rustRound x) : ℚ) = ((⌊x + 1 / 2⌋ : ℤ) : ℚ) := by
      exact_mod_cast hcast
    refine ⟨?_, ?_, Or.inl ⟨?_, ?_⟩⟩
    · rw [hfit]
    · rw [hfit]
      exact hle2
    · rw [hfit]
    · rw [hfit]
      show |(f32toU32 (rustRound x) : ℚ) - (sh : ℚ) * (dw : ℚ) / (sw : ℚ)| ≤ 1
      rw [hQ, ← hxval, abs_le]
      have hb1 : ((⌊x + 1 / 2⌋ : ℤ) : ℚ) ≤ x + 1 / 2 := Int.floor_le _
      have hb2 : x + 1 / 2 - 1 < ((⌊x + 1 / 2⌋ : ℤ) : ℚ) := Int.sub_one_lt_floor _
      constructor <;> linarith
  · -- height-constrained branch
    have hfit : fitDestRes sw sh dw dh
        = (f32toU32 (rustRound ((sw : ℚ) / ((sh : ℚ) / (dh : ℚ)))), dh) := by
      simp only [fitDestRes]
      rw [if_neg hc]
    have hwrle : (sw : ℚ) / (dw : ℚ) ≤ (sh : ℚ) / (dh : ℚ) := by
      by_contra hgt
      exact htie ⟨not_le.mp hgt, not_lt.mp hc⟩
    set y : ℚ := (sw : ℚ) / ((sh : ℚ) / (dh : ℚ)) with hydef
    have hy0 : 0 ≤ y := le_of_lt (div_pos hSW hhr)
    have hyd : y ≤ (dw : ℚ) := by
      have h1 : (sw : ℚ) / ((sh : ℚ) / (dh : ℚ)) ≤ (sw : ℚ) / ((sw : ℚ) / (dw : ℚ)) :=
        (div_le_div_iff_of_pos_left hSW hhr hwr).mpr hwrle
      have h2 : (sw : ℚ) / ((sw : ℚ) / (dw : ℚ)) = (dw : ℚ) := by
        rw [div_div_eq_mul_div, mul_div_cancel_left₀ _ (ne_of_gt hSW)]
      rw [hydef]
      rw [h2] at h1
      exact h1
    have hyval : y = (sw : ℚ) * (dh : ℚ) / (sh : ℚ) := div_div_eq_mul_div _ _ _
    have hround : rustRound y = ⌊y + 1 / 2⌋ := if_pos hy0
    have hfl0 : (0 : ℤ) ≤ ⌊y + 1 / 2⌋ := by
      rw [Int.le_floor]
      push_cast
      linarith
    have hfld : ⌊y + 1 / 2⌋ ≤ (dw : ℤ) := by
      have hlt2 : ⌊y + 1 / 2⌋ < (dw : ℤ) + 1 := by
        rw [Int.floor_lt]
        push_cast
        linarith
      omega
    have hcast : (f32toU32 (rustRound y) : ℤ) = ⌊y + 1 / 2⌋ := by
      rw [hround]
      exact f32toU32_of_bounds hfl0 (by omega)
    have hle2 : f32toU32 (rustRound y) ≤ dw := by omega
    have hQ : (f32toU32 (rustRound y) : ℚ) = ((⌊y + 1 / 2⌋ : ℤ) : ℚ) := by
      exact_mod_cast hcast
    refine ⟨?_, ?_, Or.inr ⟨?_, ?_⟩⟩
    · rw [hfit]
      exact hle2
    · rw [hfit]
    · rw [hfit]
      show |(f32toU32 (rustRound y) : ℚ) - (sw : ℚ) * (dh : ℚ) / (sh : ℚ)| ≤ 1
      rw [hQ, ← hyval, abs_le]
      have hb1 : ((⌊y + 1 / 2⌋ : ℤ) : ℚ) ≤ y + 1 / 2 := Int.floor_le _
      have hb2 : y + 1 / 2 - 1 < ((⌊y + 1 / 2⌋ : ℤ) : ℚ) := Int.sub_one_lt_floor _
      constructor <;> linarith
    · rw [hfit]

/-- C5 witness: a 2048x768 source in a 1024x768 display (width binds): the
result fits the display and preserves the aspect ratio within one pixel. -/
theorem fit_dims_bounded_witness :
    (fitDestRes 2048 768 1024 768).1 ≤ 1024 ∧ (fitDestRes 2048 768 1024 768).2 ≤ 768 ∧
    (((fitDestRes 2048 768 1024 768).1 = 1024 ∧
        |((fitDestRes 2048 768 1024 768).2 : ℚ) - (768 : ℚ) * (1024 : ℚ) / (2048 : ℚ)| ≤ 1) ∨
     (|((fitDestRes 2048 768 1024 768).1 : ℚ) - (2048 : ℚ) * (768 : ℚ) / (768 : ℚ)| ≤ 1 ∧
        (fitDestRes 2048 768 1024 768).2 = 768)) := by
  have h := fit_dims_bounded 2048 768 1024 768 (by norm_num) (by norm_num)
    (by norm_num) (by norm_num) (by norm_num) (by norm_num)
    (by rintro ⟨-, h2⟩; norm_num [eps32] at h2)
  simpa using h

/-- C5 counterexample: source 4x2 on a 16777216x16777216 display — the
ratios differ by exactly `f32::EPSILON` (all values exact in `f32`), the
height branch fires, and the computed width `2^25` EXCEEDS the display
width `2^24`. -/
theorem fit_exceeds_display_width :
    (fitDestRes 4 2 16777216 16777216).1 = 33554432 ∧
    16777216 < (fitDestRes 4 2 16777216 16777216).1 := by
  have h : fitDestRes 4 2 16777216 16777216 = (33554432, 16777216) := by
    norm_num [fitDestRes, eps32, rustRound, f32toU32]
    rfl
  rw [h]
  exact ⟨rfl, by norm_num⟩

end Wallpaper
